import Mathlib

/-!
Verification of the whatsapp_web_py core against its specification.

Bytes are modelled as `List Nat` with each element below 256. The Python
standard-library primitives the sources call (hashlib.sha256, hmac,
base64) are embedded by their standard definitions (FIPS 180-4, RFC 2104,
RFC 4648); the AES block cipher of the external cryptography package is
abstracted as a pair of block functions. Everything else is translated
directly from the files under src/whatsapp_web_py.
-/

deriving instance DecidableEq for Except

/-- Truncation of a machine integer to 32 bits. -/
def w32 (x : Nat) : Nat := x % 4294967296

/-- Rotate a 32-bit word right by n bits. -/
def rotr (n x : Nat) : Nat := w32 ((x >>> n) ||| (x <<< (32 - n)))

/-- The 64 SHA-256 round constants of FIPS 180-4. -/
def sha256K : List Nat :=
  [1116352408, 1899447441, 3049323471, 3921009573, 961987163, 1508970993,
   2453635748, 2870763221, 3624381080, 310598401, 607225278, 1426881987,
   1925078388, 2162078206, 2614888103, 3248222580, 3835390401, 4022224774,
   264347078, 604807628, 770255983, 1249150122, 1555081692, 1996064986,
   2554220882, 2821834349, 2952996808, 3210313671, 3336571891, 3584528711,
   113926993, 338241895, 666307205, 773529912, 1294757372, 1396182291,
   1695183700, 1986661051, 2177026350, 2456956037, 2730485921, 2820302411,
   3259730800, 3345764771, 3516065817, 3600352804, 4094571909, 275423344,
   430227734, 506948616, 659060556, 883997877, 958139571, 1322822218,
   1537002063, 1747873779, 1955562222, 2024104815, 2227730452, 2361852424,
   2428436474, 2756734187, 3204031479, 3329325298]

/-- The SHA-256 initial hash value. -/
def sha256H0 : List Nat :=
  [1779033703, 3144134277, 1013904242, 2773480762,
   1359893119, 2600822924, 528734635, 1541459225]

/-- Big-endian encoding of x into n bytes. -/
def toBE (n x : Nat) : List Nat :=
  (List.range n).map (fun i => x / 256 ^ (n - 1 - i) % 256)

/-- The SHA-256 message padding: a 0x80 byte, zeros, and the bit length. -/
def sha256Pad (msg : List Nat) : List Nat :=
  let L := msg.length
  let k := (119 - L % 64) % 64
  msg ++ [0x80] ++ List.replicate k 0 ++ toBE 8 (8 * L)

/-- Grouping a byte list into big-endian 32-bit words. -/
def toWords : List Nat → List Nat
  | a :: b :: c :: d :: rest => (((a * 256 + b) * 256 + c) * 256 + d) :: toWords rest
  | _ => []

/-- Fuel-driven grouping of a list into chunks of 16 elements. -/
def chunksAux : Nat → List Nat → List (List Nat)
  | _, [] => []
  | 0, _ => []
  | fuel + 1, l => l.take 16 :: chunksAux fuel (l.drop 16)

/-- Grouping of a list into chunks of 16 elements. -/
def chunks16 (l : List Nat) : List (List Nat) := chunksAux l.length l

/-- The SHA-256 message schedule: expands 16 words to 64. -/
def sha256Schedule (block : List Nat) : List Nat :=
  (List.range 48).foldl
    (fun w _ =>
      let i := w.length
      let x15 := w.getD (i - 15) 0
      let x2 := w.getD (i - 2) 0
      let s0 := rotr 7 x15 ^^^ rotr 18 x15 ^^^ (x15 >>> 3)
      let s1 := rotr 17 x2 ^^^ rotr 19 x2 ^^^ (x2 >>> 10)
      w ++ [w32 (w.getD (i - 16) 0 + s0 + w.getD (i - 7) 0 + s1)])
    block

/-- One SHA-256 compression round on the eight-word working state. -/
def sha256Round (k w : Nat) (st : List Nat) : List Nat :=
  let a := st.getD 0 0
  let b := st.getD 1 0
  let c := st.getD 2 0
  let d := st.getD 3 0
  let e := st.getD 4 0
  let f := st.getD 5 0
  let g := st.getD 6 0
  let h := st.getD 7 0
  let s1 := rotr 6 e ^^^ rotr 11 e ^^^ rotr 25 e
  let ch := (e &&& f) ^^^ ((4294967295 ^^^ e) &&& g)
  let t1 := w32 (h + s1 + ch + k + w)
  let s0 := rotr 2 a ^^^ rotr 13 a ^^^ rotr 22 a
  let maj := (a &&& b) ^^^ (a &&& c) ^^^ (b &&& c)
  let t2 := w32 (s0 + maj)
  [w32 (t1 + t2), a, b, c, w32 (d + t1), e, f, g]

/-- The SHA-256 compression function over one 16-word block. -/
def sha256Compress (h block : List Nat) : List Nat :=
  let w := sha256Schedule block
  let st := (List.range 64).foldl
    (fun st t => sha256Round (sha256K.getD t 0) (w.getD t 0) st) h
  List.zipWith (fun x y => w32 (x + y)) h st

/-- SHA-256 of a byte list, as a 32-byte list. Models hashlib.sha256. -/
def sha256 (msg : List Nat) : List Nat :=
  let blocks := chunks16 (toWords (sha256Pad msg))
  let final := blocks.foldl sha256Compress sha256H0
  (final.map (toBE 4)).flatten

/-- HMAC-SHA256 per RFC 2104 with a 64-byte block. Models the Python hmac
module instantiated with hashlib.sha256. -/
def hmacSha256 (key msg : List Nat) : List Nat :=
  let k0 := if 64 < key.length then sha256 key else key
  let kp := k0 ++ List.replicate (64 - k0.length) 0
  let ipad := kp.map (fun b => b ^^^ 0x36)
  let opad := kp.map (fun b => b ^^^ 0x5c)
  sha256 (opad ++ sha256 (ipad ++ msg))

namespace HKDF

/-- The extract step of crypto/hkdf.py: PRK = HMAC(salt, ikm), with the
salt defaulting to 32 zero bytes. -/
def extract (ikm : List Nat) (salt : Option (List Nat)) : List Nat :=
  hmacSha256 (salt.getD (List.replicate 32 0)) ikm

/-- The chained blocks of the expand loop in crypto/hkdf.py:
T(0) is empty and T(i) = HMAC(prk, T(i-1) ++ info ++ bytes([i])). -/
def hkdfT (prk info : List Nat) : Nat → List Nat
  | 0 => []
  | i + 1 => hmacSha256 prk (hkdfT prk info i ++ info ++ [i + 1])

/-- The concatenation T(1) ++ ... ++ T(n) accumulated by the expand loop. -/
def hkdfOkm (prk info : List Nat) : Nat → List Nat
  | 0 => []
  | n + 1 => hkdfOkm prk info n ++ hkdfT prk info (n + 1)

/-- The expand step of crypto/hkdf.py: validates the length, then runs
ceil(length/32) HMAC rounds and truncates. -/
def expand (prk : List Nat) (len : Nat) (info : Option (List Nat)) :
    Except String (List Nat) :=
  if len = 0 then .error "Length must be positive"
  else if 255 * 32 < len then .error "Length too large for HKDF"
  else .ok ((hkdfOkm prk (info.getD []) ((len + 32 - 1) / 32)).take len)

/-- The derive step of crypto/hkdf.py: extract then expand. -/
def derive (ikm : List Nat) (len : Nat) (salt info : Option (List Nat)) :
    Except String (List Nat) :=
  expand (extract ikm salt) len info

end HKDF

/-- RFC 5869 Test Case 1 input keying material: 22 bytes of 0x0b. -/
def tc1Ikm : List Nat := List.replicate 22 0x0b

/-- RFC 5869 Test Case 1 salt: 0x000102030405060708090a0b0c. -/
def tc1Salt : List Nat := [0, 1, 2, 3, 4, 5, 6, 7, 8, 9, 10, 11, 12]

/-- RFC 5869 Test Case 1 info: 0xf0f1f2f3f4f5f6f7f8f9. -/
def tc1Info : List Nat :=
  [0xf0, 0xf1, 0xf2, 0xf3, 0xf4, 0xf5, 0xf6, 0xf7, 0xf8, 0xf9]

/-- RFC 5869 Test Case 1 published 42-byte output keying material. -/
def tc1Okm : List Nat :=
  [0x3c, 0xb2, 0x5f, 0x25, 0xfa, 0xac, 0xd5, 0x7a, 0x90, 0x43, 0x4f, 0x64,
   0xd0, 0x36, 0x2f, 0x2a, 0x2d, 0x2d, 0x0a, 0x90, 0xcf, 0x1a, 0x5a, 0x4c,
   0x5d, 0xb0, 0x2d, 0x56, 0xec, 0xc4, 0xc5, 0xbf, 0x34, 0x00, 0x72, 0x08,
   0xd5, 0xb8, 0x87, 0x18, 0x58, 0x65]

set_option maxRecDepth 100000 in
/-- C1: HKDF.derive on the RFC 5869 Test Case 1 literal inputs (IKM of 22
0x0b bytes, the published salt and info, length 42) returns exactly the
published 42-byte OKM. -/
theorem claim_C1 :
    HKDF.derive tc1Ikm 42 (some tc1Salt) (some tc1Info) = .ok tc1Okm := by
  decide

section HkdfLength

/-- The big-endian encoding of x into n bytes has length n. -/
theorem toBE_length (n x : Nat) : (toBE n x).length = n := by
  simp [toBE]

/-- One compression round always yields an eight-word state. -/
theorem sha256Round_length (k w : Nat) (st : List Nat) :
    (sha256Round k w st).length = 8 := rfl

/-- The round fold preserves the eight-word state length. -/
theorem sha256Fold_length (l : List Nat) (w : List Nat) (st : List Nat)
    (h : st.length = 8) :
    ((l.foldl (fun st t => sha256Round (sha256K.getD t 0) (w.getD t 0) st) st).length) = 8 := by
  induction l generalizing st with
  | nil => exact h
  | cons x xs ih => exact ih _ (sha256Round_length _ _ _)

/-- The compression function preserves the eight-word hash length. -/
theorem sha256Compress_length (h block : List Nat) (hh : h.length = 8) :
    (sha256Compress h block).length = 8 := by
  unfold sha256Compress
  rw [List.length_zipWith, sha256Fold_length _ _ _ hh, hh]
  simp

/-- The block fold preserves the eight-word hash length. -/
theorem sha256FoldBlocks_length (bs : List (List Nat)) (h : List Nat)
    (hh : h.length = 8) : ((bs.foldl sha256Compress h).length) = 8 := by
  induction bs generalizing h with
  | nil => exact hh
  | cons b bs ih => exact ih _ (sha256Compress_length _ _ hh)

/-- Flattening four-byte encodings of a word list gives 4 times as many
bytes. -/
theorem flatten_toBE_length (l : List Nat) :
    ((l.map (toBE 4)).flatten).length = 4 * l.length := by
  induction l with
  | nil => simp
  | cons x xs ih => simp [toBE_length, ih]; omega

/-- SHA-256 digests are exactly 32 bytes. -/
theorem sha256_length (msg : List Nat) : (sha256 msg).length = 32 := by
  unfold sha256
  rw [flatten_toBE_length,
    sha256FoldBlocks_length (chunks16 (toWords (sha256Pad msg))) sha256H0 rfl]

/-- HMAC-SHA256 tags are exactly 32 bytes. -/
theorem hmacSha256_length (key msg : List Nat) :
    (hmacSha256 key msg).length = 32 := by
  simp [hmacSha256, sha256_length]

/-- Every chained HKDF block is exactly 32 bytes. -/
theorem hkdfT_length (prk info : List Nat) (i : Nat) :
    (HKDF.hkdfT prk info (i + 1)).length = 32 := by
  simp [HKDF.hkdfT, hmacSha256_length]

/-- The accumulated expand output of n rounds is exactly 32n bytes. -/
theorem hkdfOkm_length (prk info : List Nat) (n : Nat) :
    (HKDF.hkdfOkm prk info n).length = 32 * n := by
  induction n with
  | zero => simp [HKDF.hkdfOkm]
  | succ k ih => simp [HKDF.hkdfOkm, ih, hkdfT_length]; omega

/-- Running more expand rounds only appends further blocks. -/
theorem hkdfOkm_add (prk info : List Nat) (m k : Nat) :
    ∃ t, HKDF.hkdfOkm prk info (m + k) = HKDF.hkdfOkm prk info m ++ t := by
  induction k with
  | zero => exact ⟨[], by simp⟩
  | succ j ih =>
    obtain ⟨t, ht⟩ := ih
    exact ⟨t ++ HKDF.hkdfT prk info (m + j + 1),
      by simp [HKDF.hkdfOkm, ht, List.append_assoc]⟩

end HkdfLength

/-- C10: the HKDF expand output is monotone in the requested length: for
0 < m <= n <= 255 * 32, expanding to m bytes gives exactly the first m
bytes of expanding to n bytes, because each chained block depends only on
the PRK, the info and the earlier blocks. -/
theorem claim_C10 (prk info : List Nat) (m n : Nat) (h1 : 0 < m)
    (h2 : m ≤ n) (h3 : n ≤ 255 * 32) :
    HKDF.expand prk m (some info) =
      (HKDF.expand prk n (some info)).map (fun okm => okm.take m) := by
  unfold HKDF.expand
  rw [if_neg (by omega), if_neg (by omega), if_neg (by omega), if_neg (by omega)]
  simp only [Except.map, Option.getD]
  have hdivle : (m + 32 - 1) / 32 ≤ (n + 32 - 1) / 32 :=
    Nat.div_le_div_right (by omega)
  obtain ⟨t, ht⟩ := hkdfOkm_add prk info ((m + 32 - 1) / 32)
    ((n + 32 - 1) / 32 - (m + 32 - 1) / 32)
  rw [List.take_take, Nat.min_eq_left h2,
    show (n + 32 - 1) / 32 = (m + 32 - 1) / 32 +
      ((n + 32 - 1) / 32 - (m + 32 - 1) / 32) by omega, ht,
    List.take_append_of_le_length]
  rw [hkdfOkm_length]
  omega

/-- Witness for C10 at a concrete PRK and lengths 1 and 40. -/
theorem claim_C10_witness :
    HKDF.expand (List.replicate 32 0) 1 (some []) =
      (HKDF.expand (List.replicate 32 0) 40 (some [])).map
        (fun okm => okm.take 1) :=
  claim_C10 (List.replicate 32 0) [] 1 40 (by decide) (by decide) (by decide)

/-- Pointwise XOR of two byte lists. -/
def xorBytes (a b : List Nat) : List Nat := List.zipWith (fun x y => x ^^^ y) a b

/-- PKCS7 padding to the 16-byte AES block size, as applied by the
padding.PKCS7(128) padder used in crypto/aes.py. -/
def pkcs7Pad (p : List Nat) : List Nat :=
  p ++ List.replicate (16 - p.length % 16) (16 - p.length % 16)

/-- PKCS7 unpadding with full validation, as performed by the
padding.PKCS7(128) unpadder used in crypto/aes.py: the data must be a
positive multiple of 16 bytes, the final byte n must lie in 1..16 and the
last n bytes must all equal n. -/
def pkcs7Unpad (p : List Nat) : Except String (List Nat) :=
  if p.length = 0 ∨ p.length % 16 ≠ 0 then .error "Invalid padding bytes"
  else if p.getLastD 0 = 0 ∨ 16 < p.getLastD 0 then .error "Invalid padding bytes"
  else if p.drop (p.length - p.getLastD 0) = List.replicate (p.getLastD 0) (p.getLastD 0)
    then .ok (p.take (p.length - p.getLastD 0))
  else .error "Invalid padding bytes"

/-- CBC encryption chaining: each block is the cipher applied to the XOR
of the plaintext block with the previous ciphertext block. -/
def cbcEncBlocks (E : List Nat → List Nat) (prev : List Nat) :
    List (List Nat) → List (List Nat)
  | [] => []
  | b :: bs => E (xorBytes b prev) :: cbcEncBlocks E (E (xorBytes b prev)) bs

/-- CBC decryption chaining: each plaintext block is the deciphered block
XORed with the previous ciphertext block. -/
def cbcDecBlocks (D : List Nat → List Nat) (prev : List Nat) :
    List (List Nat) → List Nat
  | [] => []
  | c :: cs => xorBytes (D c) prev ++ cbcDecBlocks D c cs

namespace AESCipher

/-- The encrypt_cbc method of crypto/aes.py, with the AES block cipher of
the external cryptography package abstracted as the block function E of
the key: PKCS7-pad, CBC-encrypt, and prepend the IV. -/
def encrypt_cbc (E : List Nat → List Nat → List Nat)
    (plaintext key iv : List Nat) : Except String (List Nat) :=
  if iv.length ≠ 16 then .error "IV must be 16 bytes"
  else .ok (iv ++ (cbcEncBlocks (E key) iv (chunks16 (pkcs7Pad plaintext))).flatten)

/-- The decrypt_cbc method of crypto/aes.py, with the AES block cipher
abstracted as the block function D of the key: require at least 16 bytes,
split off the IV, CBC-decrypt and validate the PKCS7 padding. -/
def decrypt_cbc (D : List Nat → List Nat → List Nat)
    (ciphertext key : List Nat) : Except String (List Nat) :=
  if ciphertext.length < 16 then .error "Ciphertext too short (need at least IV)"
  else if (ciphertext.drop 16).length % 16 ≠ 0 then .error "Invalid ciphertext length"
  else pkcs7Unpad (cbcDecBlocks (D key) (ciphertext.take 16) (chunks16 (ciphertext.drop 16)))

/-- The validate_key method of crypto/aes.py: the length must be one of
16, 24 or 32 bytes. -/
def validate_key (key : List Nat) : Bool := [16, 24, 32].contains key.length

end AESCipher

namespace Curve25519

/-- The verify_signature method of crypto/curve.py: a signature that is
not 64 bytes is rejected, and any 64-byte signature is accepted by the
placeholder verification. -/
def verify_signature (publicKey data signature : List Nat) : Bool :=
  if signature.length ≠ 64 then false else true

end Curve25519

section CbcLemmas

/-- Chunking with zero fuel or an empty list gives no chunks. -/
theorem chunksAux_nil (f : Nat) : chunksAux f [] = [] := by
  cases f <;> rfl

/-- The chunking step on a nonempty list with positive fuel. -/
theorem chunksAux_succ (f a : Nat) (as : List Nat) :
    chunksAux (f + 1) (a :: as) = (a :: as).take 16 :: chunksAux f ((a :: as).drop 16) := rfl

/-- Chunking does not depend on the fuel once it covers the length. -/
theorem chunksAux_congr (f1 f2 : Nat) (l : List Nat) (h1 : l.length ≤ f1)
    (h2 : l.length ≤ f2) : chunksAux f1 l = chunksAux f2 l := by
  induction f1 generalizing f2 l with
  | zero =>
    have : l = [] := by cases l <;> simp_all
    subst this
    simp [chunksAux_nil]
  | succ f ih =>
    cases l with
    | nil => simp [chunksAux_nil]
    | cons a as =>
      cases f2 with
      | zero => simp at h2
      | succ g =>
        rw [chunksAux_succ, chunksAux_succ]
        congr 1
        apply ih
        · simp only [List.length_drop, List.length_cons] at *
          omega
        · simp only [List.length_drop, List.length_cons] at *
          omega

/-- Chunking a list that starts with a full 16-byte block. -/
theorem chunks16_cons16 (l r : List Nat) (h : l.length = 16) :
    chunks16 (l ++ r) = l :: chunks16 r := by
  cases l with
  | nil => simp at h
  | cons a as =>
    have hlen : (a :: as ++ r).length = (as ++ r).length + 1 := by simp
    unfold chunks16
    rw [hlen, show (a :: as) ++ r = a :: (as ++ r) from rfl, chunksAux_succ]
    congr 1
    · rw [show a :: (as ++ r) = (a :: as) ++ r from rfl, ← h, List.take_left]
    · rw [show a :: (as ++ r) = (a :: as) ++ r from rfl, ← h, List.drop_left]
      apply chunksAux_congr
      · simp only [List.length_cons, List.length_append] at *
        omega
      · rfl

/-- Flattening the chunks of any list recovers the list. -/
theorem chunksAux_flatten (f : Nat) (l : List Nat) (h : l.length ≤ f) :
    (chunksAux f l).flatten = l := by
  induction f generalizing l with
  | zero =>
    have : l = [] := by cases l <;> simp_all
    subst this
    simp [chunksAux_nil]
  | succ g ih =>
    cases l with
    | nil => simp [chunksAux_nil]
    | cons a as =>
      rw [chunksAux_succ]
      simp only [List.flatten_cons]
      rw [ih]
      · exact List.take_append_drop 16 (a :: as)
      · simp only [List.length_drop, List.length_cons] at *
        omega

/-- Flattening the 16-chunks of a list recovers the list. -/
theorem chunks16_flatten (l : List Nat) : (chunks16 l).flatten = l :=
  chunksAux_flatten l.length l le_rfl

/-- Every 16-chunk of a list whose length is a multiple of 16 has
exactly 16 elements. -/
theorem chunksAux_mem_length (f : Nat) : ∀ (l b : List Nat), l.length ≤ f →
    l.length % 16 = 0 → b ∈ chunksAux f l → b.length = 16 := by
  induction f with
  | zero =>
    intro l b h1 _ hb
    have : l = [] := by cases l <;> simp_all
    subst this
    simp [chunksAux_nil] at hb
  | succ g ih =>
    intro l b h1 h2 hb
    cases l with
    | nil => simp [chunksAux_nil] at hb
    | cons a as =>
      rw [chunksAux_succ] at hb
      rcases List.mem_cons.mp hb with hb | hb
      · subst hb
        simp only [List.length_take, List.length_cons]
        simp only [List.length_cons] at h2
        omega
      · refine ih _ _ ?_ ?_ hb
        · simp only [List.length_drop, List.length_cons] at *
          omega
        · simp only [List.length_drop, List.length_cons] at *
          omega

/-- Re-chunking the flattening of 16-byte blocks recovers the blocks. -/
theorem chunks16_of_blocks (cs : List (List Nat))
    (h : ∀ b ∈ cs, b.length = 16) : chunks16 cs.flatten = cs := by
  induction cs with
  | nil => rfl
  | cons c cs ih =>
    simp only [List.flatten_cons]
    rw [chunks16_cons16 _ _ (h c (by simp)), ih]
    intro b hb
    exact h b (by simp [hb])

/-- The flattening of 16-byte blocks has length a multiple of 16. -/
theorem flatten_blocks_mod (cs : List (List Nat))
    (h : ∀ b ∈ cs, b.length = 16) : cs.flatten.length % 16 = 0 := by
  induction cs with
  | nil => rfl
  | cons c cs ih =>
    simp only [List.flatten_cons, List.length_append, h c (by simp)]
    have := ih (fun b hb => h b (by simp [hb]))
    omega

/-- XOR of byte lists has the length of the shorter list. -/
theorem xorBytes_length (a b : List Nat) :
    (xorBytes a b).length = min a.length b.length := by
  simp [xorBytes]

/-- XORing twice with the same list is the identity. -/
theorem xorBytes_cancel (a b : List Nat) (h : a.length = b.length) :
    xorBytes (xorBytes a b) b = a := by
  induction a generalizing b with
  | nil =>
    cases b with
    | nil => rfl
    | cons y ys => simp at h
  | cons x xs ih =>
    cases b with
    | nil => simp at h
    | cons y ys =>
      have h2 : xs.length = ys.length := by
        simpa using h
      simp only [xorBytes] at ih ⊢
      rw [List.zipWith_cons_cons, List.zipWith_cons_cons,
        Nat.xor_cancel_right, ih ys h2]

/-- CBC encryption of 16-byte blocks yields 16-byte blocks. -/
theorem cbcEncBlocks_mem_length (E : List Nat → List Nat)
    (hE : ∀ b, b.length = 16 → (E b).length = 16) :
    ∀ (bs : List (List Nat)) (prev : List Nat), prev.length = 16 →
    (∀ b ∈ bs, b.length = 16) → ∀ c ∈ cbcEncBlocks E prev bs, c.length = 16 := by
  intro bs
  induction bs with
  | nil => intro prev _ _ c hc; simp [cbcEncBlocks] at hc
  | cons b bs ih =>
    intro prev hprev hall c hc
    have hb : b.length = 16 := hall b (by simp)
    have hx : (xorBytes b prev).length = 16 := by
      rw [xorBytes_length, hb, hprev]
      rfl
    rcases List.mem_cons.mp hc with hc | hc
    · subst hc
      exact hE _ hx
    · exact ih (E (xorBytes b prev)) (hE _ hx) (fun d hd => hall d (by simp [hd])) c hc

/-- CBC decryption inverts CBC encryption block by block. -/
theorem cbcDecBlocks_encBlocks (E D : List Nat → List Nat)
    (hE : ∀ b, b.length = 16 → (E b).length = 16)
    (hD : ∀ b, b.length = 16 → D (E b) = b) :
    ∀ (bs : List (List Nat)) (prev : List Nat), prev.length = 16 →
    (∀ b ∈ bs, b.length = 16) →
    cbcDecBlocks D prev (cbcEncBlocks E prev bs) = bs.flatten := by
  intro bs
  induction bs with
  | nil => intro prev _ _; rfl
  | cons b bs ih =>
    intro prev hprev hall
    have hb : b.length = 16 := hall b (by simp)
    have hx : (xorBytes b prev).length = 16 := by
      rw [xorBytes_length, hb, hprev]
      rfl
    simp only [cbcEncBlocks, cbcDecBlocks, List.flatten_cons]
    rw [hD _ hx, xorBytes_cancel _ _ (by omega),
      ih (E (xorBytes b prev)) (hE _ hx) (fun d hd => hall d (by simp [hd]))]

/-- The PKCS7-padded list has the unpadded length plus the pad byte. -/
theorem pkcs7Pad_length (p : List Nat) :
    (pkcs7Pad p).length = p.length + (16 - p.length % 16) := by
  simp [pkcs7Pad]

/-- The padded length is a positive multiple of 16. -/
theorem pkcs7Pad_mod (p : List Nat) : (pkcs7Pad p).length % 16 = 0 := by
  rw [pkcs7Pad_length]
  omega

/-- The last element of a nonempty replicated list. -/
theorem getLastD_replicate (j v d : Nat) :
    (List.replicate (j + 1) v).getLastD d = v := by
  induction j generalizing d with
  | zero => rfl
  | succ i ih =>
    rw [show List.replicate (i + 2) v = v :: List.replicate (i + 1) v from rfl,
      List.getLastD_cons]
    exact ih v

/-- The last element past any front list is the replicated value. -/
theorem getLastD_append_replicate (l1 : List Nat) (j v d : Nat) :
    (l1 ++ List.replicate (j + 1) v).getLastD d = v := by
  induction l1 generalizing d with
  | nil => exact getLastD_replicate j v d
  | cons a as ih =>
    rw [List.cons_append, List.getLastD_cons]
    exact ih a

/-- The last element of the padded list is the pad length. -/
theorem pkcs7Pad_getLastD (p : List Nat) :
    (pkcs7Pad p).getLastD 0 = 16 - p.length % 16 := by
  have h : 16 - p.length % 16 = (15 - p.length % 16) + 1 := by omega
  unfold pkcs7Pad
  rw [h]
  exact getLastD_append_replicate _ _ _ _

/-- Unpadding inverts padding for every byte list. -/
theorem pkcs7Unpad_pad (p : List Nat) : pkcs7Unpad (pkcs7Pad p) = .ok p := by
  unfold pkcs7Unpad
  have hlen := pkcs7Pad_length p
  have hmod := pkcs7Pad_mod p
  have hlast := pkcs7Pad_getLastD p
  rw [if_neg (by omega), hlast, if_neg (by omega),
    show (pkcs7Pad p).length - (16 - p.length % 16) = p.length by omega]
  have hdrop : (pkcs7Pad p).drop p.length =
      List.replicate (16 - p.length % 16) (16 - p.length % 16) := by
    rw [show pkcs7Pad p =
      p ++ List.replicate (16 - p.length % 16) (16 - p.length % 16) from rfl]
    exact List.drop_left p _
  rw [hdrop, if_pos rfl,
    show pkcs7Pad p =
      p ++ List.replicate (16 - p.length % 16) (16 - p.length % 16) from rfl,
    List.take_left]

end CbcLemmas

/-- C5: AES-CBC with PKCS7 padding round-trips: for every plaintext (in
particular every length up to 1000 bytes), every key accepted by the block
cipher (the two hypotheses on E and D state that the cipher at this key is
a 16-byte block permutation, which holds exactly for the AES keys of 16,
24 or 32 bytes) and every 16-byte IV, decrypt_cbc recovers the plaintext
from encrypt_cbc, which prepends the IV that decrypt_cbc splits off. -/
theorem claim_C5 (E D : List Nat → List Nat → List Nat) (p key iv : List Nat)
    (hE : ∀ b, b.length = 16 → (E key b).length = 16)
    (hD : ∀ b, b.length = 16 → D key (E key b) = b)
    (hiv : iv.length = 16) (hp : p.length ≤ 1000) :
    (AESCipher.encrypt_cbc E p key iv).bind
      (fun ct => AESCipher.decrypt_cbc D ct key) = .ok p := by
  unfold AESCipher.encrypt_cbc
  rw [if_neg (by omega)]
  show AESCipher.decrypt_cbc D _ key = .ok p
  have hblocks : ∀ b ∈ chunks16 (pkcs7Pad p), b.length = 16 :=
    fun b hb => chunksAux_mem_length _ _ _ le_rfl (pkcs7Pad_mod p) hb
  have hcblocks : ∀ c ∈ cbcEncBlocks (E key) iv (chunks16 (pkcs7Pad p)), c.length = 16 :=
    cbcEncBlocks_mem_length _ hE _ _ hiv hblocks
  have hdata := flatten_blocks_mod _ hcblocks
  unfold AESCipher.decrypt_cbc
  rw [if_neg (by simp; omega)]
  rw [show ((iv ++ (cbcEncBlocks (E key) iv (chunks16 (pkcs7Pad p))).flatten).drop 16) =
      (cbcEncBlocks (E key) iv (chunks16 (pkcs7Pad p))).flatten by
    rw [← hiv, List.drop_left]]
  rw [if_neg (by omega)]
  rw [show ((iv ++ (cbcEncBlocks (E key) iv (chunks16 (pkcs7Pad p))).flatten).take 16) = iv by
    rw [← hiv, List.take_left]]
  rw [chunks16_of_blocks _ hcblocks,
    cbcDecBlocks_encBlocks _ _ hE hD _ _ hiv hblocks,
    chunks16_flatten]
  exact pkcs7Unpad_pad p

/-- Witness for C5: the identity block cipher round-trips a concrete
three-byte plaintext with the zero IV. -/
theorem claim_C5_witness :
    (AESCipher.encrypt_cbc (fun _ b => b) [1, 2, 3] (List.replicate 32 0)
      (List.replicate 16 0)).bind
      (fun ct => AESCipher.decrypt_cbc (fun _ b => b) ct (List.replicate 32 0)) =
      .ok [1, 2, 3] :=
  claim_C5 (fun _ b => b) (fun _ b => b) [1, 2, 3] (List.replicate 32 0)
    (List.replicate 16 0) (fun _ hb => hb) (fun _ _ => rfl) (by decide) (by decide)

/-- C6: validate_key accepts exactly the byte lengths 16, 24 and 32, and
in particular rejects lengths 0 and 33. -/
theorem claim_C6 :
    (∀ key : List Nat, AESCipher.validate_key key = true ↔
      (key.length = 16 ∨ key.length = 24 ∨ key.length = 32)) ∧
    AESCipher.validate_key [] = false ∧
    AESCipher.validate_key (List.replicate 33 0) = false := by
  refine ⟨fun key => ?_, by decide, by decide⟩
  simp [AESCipher.validate_key]

/-- C9: verify_signature accepts a signature exactly when it is 64 bytes
long, regardless of the public key, the data and the signature contents:
the placeholder verification always succeeds past the length check. -/
theorem claim_C9 :
    ∀ (publicKey data signature : List Nat),
      Curve25519.verify_signature publicKey data signature = true ↔
        signature.length = 64 := by
  intro pk d s
  unfold Curve25519.verify_signature
  split
  · simp_all
  · simp_all

/-- The value of a standard base64 alphabet index as a character, per
RFC 4648. Models the Python base64 module alphabet. -/
def b64Char (n : Nat) : Char :=
  ("ABCDEFGHIJKLMNOPQRSTUVWXYZabcdefghijklmnopqrstuvwxyz0123456789+/".toList).getD n 'A'

/-- Standard base64 encoding of a byte list into characters, with padding,
per RFC 4648. Models Python base64.b64encode. -/
def base64Chunks : List Nat → List Char
  | a :: b :: c :: rest =>
    b64Char (a / 4) :: b64Char (a % 4 * 16 + b / 16) ::
      b64Char (b % 16 * 4 + c / 64) :: b64Char (c % 64) :: base64Chunks rest
  | [a, b] =>
    [b64Char (a / 4), b64Char (a % 4 * 16 + b / 16), b64Char (b % 16 * 4), '=']
  | [a] =>
    [b64Char (a / 4), b64Char (a % 4 * 16), '=', '=']
  | [] => []

/-- Standard base64 encoding as a string. -/
def base64Encode (bs : List Nat) : String := String.mk (base64Chunks bs)

/-- The value of a base64 character, none for a character outside the
standard alphabet. -/
def b64Val (c : Char) : Option Nat :=
  if 'A' ≤ c ∧ c ≤ 'Z' then some (c.toNat - 65)
  else if 'a' ≤ c ∧ c ≤ 'z' then some (c.toNat - 97 + 26)
  else if '0' ≤ c ∧ c ≤ '9' then some (c.toNat - 48 + 52)
  else if c = '+' then some 62
  else if c = '/' then some 63
  else none

/-- Standard base64 decoding of characters in groups of four, honouring
trailing padding. Models Python base64.b64decode on canonical input. -/
def base64DecodeChars : List Char → Option (List Nat)
  | [] => some []
  | c1 :: c2 :: c3 :: c4 :: rest =>
    match b64Val c1, b64Val c2 with
    | some v1, some v2 =>
      if c3 = '=' then
        if c4 = '=' ∧ rest = [] then some [v1 * 4 + v2 / 16] else none
      else
        match b64Val c3 with
        | some v3 =>
          if c4 = '=' then
            if rest = [] then some [v1 * 4 + v2 / 16, v2 % 16 * 16 + v3 / 4]
            else none
          else
            match b64Val c4 with
            | some v4 =>
              match base64DecodeChars rest with
              | some bs => some ((v1 * 4 + v2 / 16) :: (v2 % 16 * 16 + v3 / 4) ::
                  (v3 % 4 * 64 + v4) :: bs)
              | none => none
            | none => none
        | none => none
    | _, _ => none
  | _ => none

/-- Standard base64 decoding of a string. -/
def base64Decode (s : String) : Option (List Nat) := base64DecodeChars s.toList

namespace QRAuth

/-- The QR data construction of the _generate_qr_code method of
auth/qr_auth.py: the f-string joining the server reference, the base64
public key and the client id with commas. -/
def generate_qr_data (qrRef : String) (publicKey : List Nat) (clientId : String) : String :=
  qrRef ++ "," ++ base64Encode publicKey ++ "," ++ clientId

end QRAuth

/-- The QR payload as the spec words it: the server reference, the
standard base64 encoding of the public key and the client id, joined by
commas. -/
def qrPayloadSpec (serverRef : String) (publicKey : List Nat) (clientId : String) : String :=
  serverRef ++ "," ++ base64Encode publicKey ++ "," ++ clientId

/-- C7: the QR payload is exactly the server reference, the standard
base64 encoding of the 32-byte public key and the client id joined by
commas; checked both as an equality with the payload the spec describes
and on a concrete 32-byte key against the published RFC 4648 encoding. -/
theorem claim_C7 :
    (∀ (serverRef clientId : String) (publicKey : List Nat),
      QRAuth.generate_qr_data serverRef publicKey clientId =
        qrPayloadSpec serverRef publicKey clientId) ∧
    QRAuth.generate_qr_data "abc123" (List.range 32) "clientId==" =
      "abc123,AAECAwQFBgcICQoLDA0ODxAREhMUFRYXGBkaGxwdHh8=,clientId==" := by
  constructor
  · intro serverRef clientId publicKey
    rfl
  · decide

/-- The authentication data dictionary built by _process_shared_secret in
auth/qr_auth.py. -/
structure AuthData where
  clientId : String
  encKey : List Nat
  macKey : List Nat
  serverToken : Option String
  clientToken : Option String
  authenticated : Bool
  timestamp : Nat
deriving DecidableEq

/-- One item of the JSON-like connection message handled by
handle_connection_message: a string, a dictionary with string values, or
a value of any other shape. -/
inductive MsgItem where
  | str : String → MsgItem
  | dict : List (String × String) → MsgItem
  | other : MsgItem
deriving DecidableEq

/-- Key lookup in a dictionary modelled as an association list. -/
def dictLookup (d : List (String × String)) (k : String) : Option String :=
  match d with
  | [] => none
  | (k2, v) :: rest => if k2 = k then some v else dictLookup rest k

namespace QRAuth

/-- The _process_shared_secret method of auth/qr_auth.py. The X25519
exchange of the external cryptography package is abstracted as the
function ecdh of the private key and the peer public key, and the AES
block cipher as the block function aesDec of the key; errors carry the
message of the ValueError raised at the corresponding site. -/
def process_shared_secret (ecdh : List Nat → List Nat → List Nat)
    (aesDec : List Nat → List Nat → List Nat) (privateKey : List Nat)
    (clientId : String) (timestamp : Nat) (sharedSecret : List Nat) :
    Except String AuthData :=
  if sharedSecret.length < 96 then .error "Shared secret too short"
  else
    match HKDF.expand (ecdh privateKey (sharedSecret.take 32)) 80 none with
    | .error e => .error e
    | .ok expandedSecret =>
      if (sharedSecret.drop 32).take 32 ≠
          hmacSha256 ((expandedSecret.drop 32).take 32)
            (sharedSecret.take 32 ++ sharedSecret.drop 64) then
        .error "HMAC validation failed"
      else
        match AESCipher.decrypt_cbc aesDec
            ((expandedSecret.drop 64).take 16 ++ sharedSecret.drop 64)
            (expandedSecret.take 32) with
        | .error e => .error e
        | .ok decryptedKeys =>
          if decryptedKeys.length < 64 then .error "Decrypted keys too short"
          else .ok {
            clientId := clientId,
            encKey := decryptedKeys.take 32,
            macKey := (decryptedKeys.drop 32).take 32,
            serverToken := none,
            clientToken := none,
            authenticated := true,
            timestamp := timestamp }

/-- The handle_connection_message method of auth/qr_auth.py: shape checks
returning False (none) on malformed input, base64 decoding of the secret,
then the shared-secret processing, every raised error being caught and
turned into False (none). -/
def handle_connection_message (ecdh aesDec : List Nat → List Nat → List Nat)
    (privateKey : List Nat) (clientId : String) (timestamp : Nat)
    (message : List MsgItem) : Option AuthData :=
  match message with
  | m0 :: m1 :: _ =>
    if m0 ≠ MsgItem.str "Conn" then none
    else
      match m1 with
      | .dict d =>
        match dictLookup d "secret" with
        | none => none
        | some secret =>
          match base64Decode secret with
          | none => none
          | some blob =>
            match process_shared_secret ecdh aesDec privateKey clientId timestamp blob with
            | .ok a => some a
            | .error _ => none
      | _ => none
  | _ => none

end QRAuth

/-- The session keys as the spec words them: HKDF-expand the raw ECDH
output to 80 bytes with no salt or info (expand only, never extract), and
split the result into the AES key (bytes 0..31), the HMAC key (bytes
32..63) and the IV (bytes 64..79). -/
def specDerivedKeys (ecdhSecret : List Nat) : List Nat × List Nat × List Nat :=
  match HKDF.expand ecdhSecret 80 none with
  | .ok okm => (okm.take 32, (okm.drop 32).take 32, (okm.drop 64).take 16)
  | .error _ => ([], [], [])

/-- The tail of the key exchange as the spec words it, applied to a given
key triple: recompute the HMAC over public key and encrypted keys with
the HMAC key, then CBC-decrypt IV plus encrypted keys with the AES key. -/
def specKeyExchange (aesDec : List Nat → List Nat → List Nat)
    (clientId : String) (timestamp : Nat) (blob : List Nat)
    (keys : List Nat × List Nat × List Nat) : Except String AuthData :=
  if (blob.drop 32).take 32 ≠ hmacSha256 keys.2.1 (blob.take 32 ++ blob.drop 64) then
    .error "HMAC validation failed"
  else
    match AESCipher.decrypt_cbc aesDec (keys.2.2 ++ blob.drop 64) keys.1 with
    | .error e => .error e
    | .ok dk =>
      if dk.length < 64 then .error "Decrypted keys too short"
      else .ok ⟨clientId, dk.take 32, (dk.drop 32).take 32, none, none, true, timestamp⟩

/-- On a long enough blob, the key exchange is exactly the spec pipeline
applied to the expand-only key schedule of the raw ECDH secret. -/
theorem process_shared_secret_spec (ecdh aesDec : List Nat → List Nat → List Nat)
    (privateKey : List Nat) (clientId : String) (timestamp : Nat)
    (blob : List Nat) (h : 96 ≤ blob.length) :
    QRAuth.process_shared_secret ecdh aesDec privateKey clientId timestamp blob =
      specKeyExchange aesDec clientId timestamp blob
        (specDerivedKeys (ecdh privateKey (blob.take 32))) := by
  obtain ⟨okm, hexp⟩ : ∃ okm,
      HKDF.expand (ecdh privateKey (blob.take 32)) 80 none = .ok okm :=
    ⟨(HKDF.hkdfOkm (ecdh privateKey (blob.take 32)) [] 3).take 80,
      by unfold HKDF.expand; norm_num⟩
  unfold QRAuth.process_shared_secret specKeyExchange specDerivedKeys
  rw [if_neg (by omega), hexp]

/-- C2: on every long enough shared-secret blob, the key-exchange step
expands the raw ECDH secret by HKDF-expand only (no extract, empty info)
to 80 bytes and uses bytes 0..31 as the AES key, 32..63 as the HMAC key
and 64..79 as the IV of the subsequent CBC decryption. -/
theorem claim_C2 (ecdh aesDec : List Nat → List Nat → List Nat)
    (privateKey : List Nat) (clientId : String) (timestamp : Nat)
    (blob : List Nat) (h : 96 ≤ blob.length) :
    QRAuth.process_shared_secret ecdh aesDec privateKey clientId timestamp blob =
      specKeyExchange aesDec clientId timestamp blob
        (specDerivedKeys (ecdh privateKey (blob.take 32))) :=
  process_shared_secret_spec ecdh aesDec privateKey clientId timestamp blob h

/-- Witness for C2 on a concrete 96-byte blob and a constant ECDH
function. -/
theorem claim_C2_witness :
    QRAuth.process_shared_secret (fun _ _ => List.replicate 32 7) (fun _ b => b)
      [] "cid" 0 (List.replicate 96 0) =
      specKeyExchange (fun _ b => b) "cid" 0 (List.replicate 96 0)
        (specDerivedKeys (List.replicate 32 7)) :=
  claim_C2 (fun _ _ => List.replicate 32 7) (fun _ b => b) [] "cid" 0
    (List.replicate 96 0) (by decide)

/-- CBC decryption never raises the HMAC-mismatch error: its failures are
the short-ciphertext, block-alignment and padding errors only. -/
theorem decrypt_cbc_error_ne_hmac (D : List Nat → List Nat → List Nat)
    (ct key : List Nat) :
    AESCipher.decrypt_cbc D ct key ≠ .error "HMAC validation failed" := by
  unfold AESCipher.decrypt_cbc
  split
  · decide
  · split
    · decide
    · unfold pkcs7Unpad
      split
      · decide
      · split
        · decide
        · split
          · simp
          · decide

/-- A successful key exchange always carries 32-byte session keys and the
authenticated flag. -/
theorem process_ok_keys (ecdh aesDec : List Nat → List Nat → List Nat)
    (privateKey : List Nat) (clientId : String) (timestamp : Nat)
    (blob : List Nat) (a : AuthData)
    (hok : QRAuth.process_shared_secret ecdh aesDec privateKey clientId timestamp blob = .ok a) :
    a.encKey.length = 32 ∧ a.macKey.length = 32 ∧ a.authenticated = true := by
  unfold QRAuth.process_shared_secret at hok
  split at hok
  · simp at hok
  · split at hok
    · simp at hok
    · split at hok
      · simp at hok
      · split at hok
        · simp at hok
        · split at hok
          · simp at hok
          · rename_i hlen64
            obtain rfl := (Except.ok.inj hok).symm
            refine ⟨?_, ?_, rfl⟩
            · simp only [List.length_take]
              omega
            · simp only [List.length_take, List.length_drop]
              omega

/-- C3: for every blob of at least 96 bytes, if the transported tag equals
the HMAC-SHA256 of ephemeral public key and encrypted keys under the
derived HMAC key then the key exchange proceeds past the integrity check
(it can only fail later in decryption) and any success carries exactly
32-byte enc and mac keys; if the tag differs in any bit, the key exchange
fails with the integrity error and produces no keys. -/
theorem claim_C3 (ecdh aesDec : List Nat → List Nat → List Nat)
    (privateKey : List Nat) (clientId : String) (timestamp : Nat)
    (blob : List Nat) (h : 96 ≤ blob.length) :
    ((blob.drop 32).take 32 =
        hmacSha256 (specDerivedKeys (ecdh privateKey (blob.take 32))).2.1
          (blob.take 32 ++ blob.drop 64) →
      QRAuth.process_shared_secret ecdh aesDec privateKey clientId timestamp blob ≠
        .error "HMAC validation failed" ∧
      ∀ a, QRAuth.process_shared_secret ecdh aesDec privateKey clientId timestamp blob =
          .ok a → a.encKey.length = 32 ∧ a.macKey.length = 32 ∧ a.authenticated = true) ∧
    ((blob.drop 32).take 32 ≠
        hmacSha256 (specDerivedKeys (ecdh privateKey (blob.take 32))).2.1
          (blob.take 32 ++ blob.drop 64) →
      QRAuth.process_shared_secret ecdh aesDec privateKey clientId timestamp blob =
        .error "HMAC validation failed") := by
  have hspec := process_shared_secret_spec ecdh aesDec privateKey clientId timestamp blob h
  constructor
  · intro heq
    constructor
    · rw [hspec]
      unfold specKeyExchange
      rw [if_neg (not_not_intro heq)]
      cases hdec : AESCipher.decrypt_cbc aesDec
          ((specDerivedKeys (ecdh privateKey (blob.take 32))).2.2 ++ blob.drop 64)
          (specDerivedKeys (ecdh privateKey (blob.take 32))).1 with
      | error e =>
        simp only [hdec]
        intro hc
        apply decrypt_cbc_error_ne_hmac aesDec
          ((specDerivedKeys (ecdh privateKey (blob.take 32))).2.2 ++ blob.drop 64)
          (specDerivedKeys (ecdh privateKey (blob.take 32))).1
        rw [hdec, Except.error.inj hc]
      | ok dk =>
        simp only [hdec]
        split <;> simp
    · intro a hok
      exact process_ok_keys ecdh aesDec privateKey clientId timestamp blob a hok
  · intro hne
    rw [hspec]
    unfold specKeyExchange
    rw [if_pos hne]

/-- Witness for C3 on a concrete 96-byte blob and a constant ECDH
function. -/
theorem claim_C3_witness :
    (((List.replicate 96 0 : List Nat).drop 32).take 32 =
        hmacSha256 (specDerivedKeys (List.replicate 32 7)).2.1
          ((List.replicate 96 0 : List Nat).take 32 ++ (List.replicate 96 0 : List Nat).drop 64) →
      QRAuth.process_shared_secret (fun _ _ => List.replicate 32 7) (fun _ b => b) []
          "cidW" 0 (List.replicate 96 0) ≠ .error "HMAC validation failed" ∧
      ∀ a, QRAuth.process_shared_secret (fun _ _ => List.replicate 32 7) (fun _ b => b) []
          "cidW" 0 (List.replicate 96 0) = .ok a →
        a.encKey.length = 32 ∧ a.macKey.length = 32 ∧ a.authenticated = true) ∧
    (((List.replicate 96 0 : List Nat).drop 32).take 32 ≠
        hmacSha256 (specDerivedKeys (List.replicate 32 7)).2.1
          ((List.replicate 96 0 : List Nat).take 32 ++ (List.replicate 96 0 : List Nat).drop 64) →
      QRAuth.process_shared_secret (fun _ _ => List.replicate 32 7) (fun _ b => b) []
          "cidW" 0 (List.replicate 96 0) = .error "HMAC validation failed") :=
  claim_C3 (fun _ _ => List.replicate 32 7) (fun _ b => b) [] "cidW" 0
    (List.replicate 96 0) (by decide)

/-- C4: a well-shaped connection message whose decoded shared-secret blob
is shorter than 96 bytes makes handle_connection_message fail (return
False, modelled as none), the blob being rejected by the length check
the spec calls the HandshakeError, before any key exchange: the
shared-secret processing stops with the short-secret error. -/
theorem claim_C4 (ecdh aesDec : List Nat → List Nat → List Nat)
    (privateKey : List Nat) (clientId : String) (timestamp : Nat)
    (d : List (String × String)) (secret : String) (blob : List Nat)
    (rest : List MsgItem)
    (hs : dictLookup d "secret" = some secret)
    (hb : base64Decode secret = some blob)
    (hlen : blob.length < 96) :
    QRAuth.handle_connection_message ecdh aesDec privateKey clientId timestamp
      (MsgItem.str "Conn" :: MsgItem.dict d :: rest) = none ∧
    QRAuth.process_shared_secret ecdh aesDec privateKey clientId timestamp blob =
      .error "Shared secret too short" := by
  have hshort : QRAuth.process_shared_secret ecdh aesDec privateKey clientId timestamp blob =
      .error "Shared secret too short" := by
    unfold QRAuth.process_shared_secret
    rw [if_pos hlen]
  refine ⟨?_, hshort⟩
  simp [QRAuth.handle_connection_message, hs, hb, hshort]

/-- Witness for C4 on a concrete message whose secret decodes to three
bytes. -/
theorem claim_C4_witness :
    QRAuth.handle_connection_message (fun _ _ => List.replicate 32 7) (fun _ b => b)
      [] "cid" 0 (MsgItem.str "Conn" :: MsgItem.dict [("secret", "AAAA")] :: []) = none ∧
    QRAuth.process_shared_secret (fun _ _ => List.replicate 32 7) (fun _ b => b)
      [] "cid" 0 [0, 0, 0] = .error "Shared secret too short" :=
  claim_C4 (fun _ _ => List.replicate 32 7) (fun _ b => b) [] "cid" 0
    [("secret", "AAAA")] "AAAA" [0, 0, 0] [] (by decide) (by decide) (by decide)

/-- The value of a hexadecimal digit, none for other characters. -/
def hexVal (c : Char) : Option Nat :=
  if '0' ≤ c ∧ c ≤ '9' then some (c.toNat - 48)
  else if 'a' ≤ c ∧ c ≤ 'f' then some (c.toNat - 97 + 10)
  else if 'A' ≤ c ∧ c ≤ 'F' then some (c.toNat - 65 + 10)
  else none

/-- Hex decoding of characters in pairs. Models Python bytes.fromhex on
strings without blanks, none standing for the raised ValueError. -/
def hexDecodeChars : List Char → Option (List Nat)
  | [] => some []
  | a :: b :: rest =>
    match hexVal a, hexVal b, hexDecodeChars rest with
    | some x, some y, some bs => some ((x * 16 + y) :: bs)
    | _, _, _ => none
  | _ => none

/-- Hex decoding of a string. Models Python bytes.fromhex. -/
def hexDecode (s : String) : Option (List Nat) := hexDecodeChars s.toList

/-- The persisted session record of the spec: clientId, encKey and macKey
as 64-character hex strings, and the two optional tokens. -/
structure SessionRecord where
  clientId : Option String
  encKey : Option String
  macKey : Option String
  serverToken : Option String
  clientToken : Option String
deriving DecidableEq

/-- Whether a string is a well-formed 64-character hex key of the session
persistence schema. -/
def isHexKey (s : String) : Bool :=
  s.length == 64 && (hexDecode s).isSome

/-- Modelled from the spec: the Session class of auth/session.py is
imported by client.py but absent from the sources, so its restore method
is taken from the spec, which says the restore path runs only if a
persisted SessionState with all required fields is available; required
per the persistence schema are clientId and the two keys as 64-character
hex strings, the tokens being nullable. -/
def Session.restore (r : SessionRecord) : Bool :=
  r.clientId.isSome &&
  (match r.encKey with
   | some s => isHexKey s
   | none => false) &&
  (match r.macKey with
   | some s => isHexKey s
   | none => false)

/-- The client-held session state of client.py: client_id, enc_key,
mac_key and the is_authenticated flag. -/
structure ClientState where
  clientId : Option String
  encKey : Option (List Nat)
  macKey : Option (List Nat)
  isAuthenticated : Bool
deriving DecidableEq

/-- The state of a freshly constructed WhatsAppClient. -/
def initialClientState : ClientState :=
  { clientId := none, encKey := none, macKey := none, isAuthenticated := false }

namespace WhatsAppClient

/-- The _restore_session method of client.py with the session file
present and holding the given record: if Session.restore accepts it, the
client id and the hex-decoded keys are assigned in order and True is
returned; a failed decode is caught after the earlier assignments stuck,
returning False. The is_authenticated flag is never touched here. -/
def restore_session (r : SessionRecord) (st : ClientState) : ClientState × Bool :=
  if Session.restore r then
    match hexDecode (r.encKey.getD "") with
    | none => ({ st with clientId := r.clientId }, false)
    | some ek =>
      match hexDecode (r.macKey.getD "") with
      | none => ({ st with clientId := r.clientId, encKey := some ek }, false)
      | some mk =>
        ({ st with clientId := r.clientId, encKey := some ek, macKey := some mk }, true)
  else (st, false)

/-- The _handle_authentication method of client.py: assigns client id and
both keys from the authentication data and sets is_authenticated. -/
def handle_authentication (a : AuthData) (st : ClientState) : ClientState :=
  { st with
    clientId := some a.clientId
    encKey := some a.encKey
    macKey := some a.macKey
    isAuthenticated := true }

end WhatsAppClient

/-- The SessionState invariant of the spec on the client state: the keys
are both unset or both exactly 32 bytes, and the authenticated flag holds
exactly when both keys are set. -/
def clientInvariant (st : ClientState) : Bool :=
  (match st.encKey, st.macKey with
   | none, none => true
   | some ek, some mk => ek.length == 32 && mk.length == 32
   | _, _ => false) &&
  (st.isAuthenticated == (st.encKey.isSome && st.macKey.isSome))

/-- Hex decoding yields one byte per two characters. -/
theorem hexDecodeChars_length : ∀ (l : List Char) (bs : List Nat),
    hexDecodeChars l = some bs → 2 * bs.length = l.length
  | [], bs, h => by
    simp only [hexDecodeChars, Option.some.injEq] at h
    subst h
    rfl
  | [a], bs, h => by
    simp [hexDecodeChars] at h
  | a :: b :: rest, bs, h => by
    unfold hexDecodeChars at h
    cases hva : hexVal a with
    | none => rw [hva] at h; simp at h
    | some x =>
      rw [hva] at h
      cases hvb : hexVal b with
      | none => rw [hvb] at h; simp at h
      | some y =>
        rw [hvb] at h
        cases hrec : hexDecodeChars rest with
        | none => rw [hrec] at h; simp at h
        | some tail =>
          rw [hrec] at h
          simp only [Option.some.injEq] at h
          subst h
          have ih := hexDecodeChars_length rest tail hrec
          simp only [List.length_cons]
          omega

/-- A valid persisted session record with 64-character zero hex keys. -/
def exampleSessionRecord : SessionRecord :=
  { clientId := some "restored-client",
    encKey := some "0000000000000000000000000000000000000000000000000000000000000000",
    macKey := some "0000000000000000000000000000000000000000000000000000000000000000",
    serverToken := none, clientToken := none }

/-- Counterexample to C8 as stated: restoring a valid persisted session
succeeds (returns True) and sets both 32-byte keys, yet the authenticated
flag stays false, so the invariant that the flag is true exactly when
both keys are set fails right after the restore operation. -/
theorem claim_C8_counterexample :
    (WhatsAppClient.restore_session exampleSessionRecord initialClientState).2 = true ∧
    clientInvariant
      (WhatsAppClient.restore_session exampleSessionRecord initialClientState).1 = false := by
  decide

/-- C8 as amended: after _handle_authentication with any authentication
data produced by the key exchange the invariant holds in full, and after
a successful _restore_session both keys are set to exactly 32 bytes (no
partial or odd-length state), but the authenticated flag is left exactly
as it was, so the flag clause of the invariant does not hold on the
restore path started from the unauthenticated initial state. -/
theorem claim_C8 :
    (∀ (ecdh aesDec : List Nat → List Nat → List Nat) (privateKey : List Nat)
      (clientId : String) (timestamp : Nat) (blob : List Nat) (a : AuthData)
      (st : ClientState),
      QRAuth.process_shared_secret ecdh aesDec privateKey clientId timestamp blob = .ok a →
      clientInvariant (WhatsAppClient.handle_authentication a st) = true) ∧
    (∀ (r : SessionRecord) (st : ClientState),
      (WhatsAppClient.restore_session r st).2 = true →
      (∃ ek mk, (WhatsAppClient.restore_session r st).1.encKey = some ek ∧
        ek.length = 32 ∧
        (WhatsAppClient.restore_session r st).1.macKey = some mk ∧
        mk.length = 32) ∧
      (WhatsAppClient.restore_session r st).1.isAuthenticated = st.isAuthenticated) := by
  constructor
  · intro ecdh aesDec privateKey clientId timestamp blob a st hok
    obtain ⟨he, hm, _⟩ :=
      process_ok_keys ecdh aesDec privateKey clientId timestamp blob a hok
    simp [clientInvariant, WhatsAppClient.handle_authentication, he, hm]
  · intro r st hres
    unfold WhatsAppClient.restore_session at hres ⊢
    split at hres
    · rename_i hrestore
      rw [if_pos hrestore]
      cases hek : hexDecode (r.encKey.getD "") with
      | none => rw [hek] at hres; simp at hres
      | some ek =>
        rw [hek] at hres
        cases hmk : hexDecode (r.macKey.getD "") with
        | none => rw [hmk] at hres; simp at hres
        | some mk =>
          unfold Session.restore at hrestore
          have henc : ∃ s, r.encKey = some s ∧ isHexKey s = true := by
            cases henc : r.encKey with
            | none => rw [henc] at hrestore; simp at hrestore
            | some s =>
              rw [henc] at hrestore
              simp only [Bool.and_eq_true] at hrestore
              exact ⟨s, rfl, hrestore.1.2⟩
          have hmac : ∃ s, r.macKey = some s ∧ isHexKey s = true := by
            cases hmac : r.macKey with
            | none => rw [hmac] at hrestore; simp at hrestore
            | some s =>
              rw [hmac] at hrestore
              simp only [Bool.and_eq_true] at hrestore
              exact ⟨s, rfl, hrestore.2⟩
          obtain ⟨se, hse, hhe⟩ := henc
          obtain ⟨sm, hsm, hhm⟩ := hmac
          simp only [isHexKey, Bool.and_eq_true, beq_iff_eq,
            Option.isSome_iff_exists] at hhe hhm
          refine ⟨⟨ek, mk, rfl, ?_, rfl, ?_⟩, rfl⟩
          · rw [hse] at hek
            simp only [Option.getD_some] at hek
            have := hexDecodeChars_length se.toList ek hek
            have hsl : se.toList.length = 64 := hhe.1
            omega
          · rw [hsm] at hmk
            simp only [Option.getD_some] at hmk
            have := hexDecodeChars_length sm.toList mk hmk
            have hsl : sm.toList.length = 64 := hhm.1
            omega
    · simp at hres
